import Mathlib

/-!
Verification development for the URL-Phishing-Checker repository.

Shallow embedding of the core modules:
  * `api/lightweight_detection.py`  (heuristic URL scoring engine)
  * `services/feedback_review_system.py`  (feedback validation and review state machine)
  * `services/admin_auth.py`  (stateless HMAC session tokens)

Strings are modelled as `List Char` (URLs, comments) or as byte lists
`List Nat` (token material).  Python `str.lower()` is modelled on ASCII,
which is the only range exercised by the repository's data.  Machine
floats of the source are modelled over `ℚ`: every heuristic sub-score in
the source is an integer-valued float, and the only fractional values
(`positives/total*20`, `raw/60*100`) are small exact rationals.
-/

-- The Batteries rational primitives are shipped `@[irreducible]`, which
-- blocks kernel evaluation of concrete scores; restore reducibility so
-- that concrete runs of the embedded engine can be checked by `decide`.
attribute [local semireducible] Rat.mul Rat.add Rat.sub Rat.inv Rat.ofScientific

namespace Phish

/-- ASCII lower-casing of one character, the behaviour of Python
`str.lower()` on the ASCII range. -/
def asciiLower (c : Char) : Char :=
  if 'A' ≤ c ∧ c ≤ 'Z' then Char.ofNat (c.toNat + 32) else c

/-- `s.lower()` on a character list. -/
def lowerL (l : List Char) : List Char := l.map asciiLower

/-- Character-list form of a string literal. -/
def str (s : String) : List Char := s.data

/-- Python `s.split(c)` for a one-character separator: the list of pieces,
never empty (splitting the empty string yields one empty piece). -/
def splitOnChar (c : Char) : List Char → List (List Char)
  | [] => [[]]
  | x :: xs =>
    let r := splitOnChar c xs
    if x = c then [] :: r
    else
      match r with
      | h :: t => (x :: h) :: t
      | [] => [[x]]

/-- The first piece of `s.split(c)`, i.e. `s.split(c)[0]`. -/
def beforeChar (c : Char) (l : List Char) : List Char := l.takeWhile (· ≠ c)

/-- Python `pat in l` substring containment. -/
def substr (pat : List Char) : List Char → Bool
  | [] => pat.isEmpty
  | x :: xs => pat.isPrefixOf (x :: xs) || substr pat xs

/-- The remainder of the list after the first occurrence of the pattern
(`none` when the pattern does not occur). -/
def afterFirst (pat : List Char) : List Char → Option (List Char)
  | [] => if pat = [] then some [] else none
  | x :: xs =>
    if pat.isPrefixOf (x :: xs) then some ((x :: xs).drop pat.length)
    else afterFirst pat xs

/-- The prefix of the list before the first occurrence of the pattern
(the whole list when the pattern does not occur). -/
def beforeFirst (pat : List Char) : List Char → List Char
  | [] => []
  | x :: xs =>
    if pat.isPrefixOf (x :: xs) then []
    else x :: beforeFirst pat xs

/-- Structural (fuel-indexed) worker for `removeAll`; the fuel is an
upper bound on the list length, so the `0` case is unreachable. -/
def removeAllAux (pat : List Char) : Nat → List Char → List Char
  | _, [] => []
  | 0, l => l
  | fuel + 1, x :: xs =>
    if pat ≠ [] ∧ pat.isPrefixOf (x :: xs) then
      removeAllAux pat fuel ((x :: xs).drop pat.length)
    else
      x :: removeAllAux pat fuel xs

/-- Python `s.replace(pat, '')`: delete every (left-to-right,
non-overlapping) occurrence of the pattern. -/
def removeAll (pat : List Char) (l : List Char) : List Char :=
  removeAllAux pat l.length l

/-- Python `round` (round-half-to-even) on a rational. -/
def pythonRound (q : ℚ) : ℤ :=
  let f : ℤ := ⌊q⌋
  let r : ℚ := q - f
  if r < 1/2 then f
  else if 1/2 < r then f + 1
  else if f % 2 = 0 then f else f + 1

/-! ## Embedding of CPython `urllib.parse.urlparse`

Only the behaviour exercised by `analyze_url` is embedded: the unsafe
bytes `\t`, `\r`, `\n` are removed, the scheme is recognised when a `:`
is preceded by a valid scheme prefix, the netloc follows `//` up to the
next `/`, `?` or `#`, the fragment is split at the first `#`, the query
at the first `?`, and `urlparse` additionally splits `;parameters` off
the last path segment.  A `ValueError` (Invalid IPv6 URL) is raised
exactly when the netloc contains `[` without `]` or `]` without `[`;
this is the only exception `analyze_url` can encounter. -/

structure ParsedUrl where
  scheme : List Char
  netloc : List Char
  path : List Char
  query : List Char
deriving Repr, DecidableEq

def isSchemeChar (c : Char) : Bool :=
  c.isAlpha || c.isDigit || c = '+' || c = '-' || c = '.'

/-- Split off `scheme:` when present; returns (scheme, rest). -/
def splitScheme (u : List Char) : List Char × List Char :=
  match u.findIdx? (· = ':') with
  | none => ([], u)
  | some i =>
    let cand := u.take i
    if 0 < i ∧ (cand.headD ' ').isAlpha ∧ ((cand.headD ' ').toNat < 128) ∧
        cand.all isSchemeChar then
      (lowerL cand, u.drop (i + 1))
    else
      ([], u)

/-- `urlparse._splitparams`: drop `;params` from the last path segment. -/
def splitParams (p : List Char) : List Char :=
  let lastSlash := (p.length - 1) - (p.reverse.findIdx (· = '/'))
  if p.contains '/' then
    (p.take lastSlash) ++ beforeChar ';' (p.drop lastSlash)
  else
    beforeChar ';' p

def pyUrlparse (url : List Char) : Except Unit ParsedUrl :=
  let u := url.filter (fun c => ¬ (c = '\t' ∨ c = '\r' ∨ c = '\n'))
  let (scheme, rest) := splitScheme u
  let (netloc, rest1) :=
    if (str "//").isPrefixOf rest then
      let r := rest.drop 2
      (r.takeWhile (fun c => ¬ (c = '/' ∨ c = '?' ∨ c = '#')),
       r.dropWhile (fun c => ¬ (c = '/' ∨ c = '?' ∨ c = '#')))
    else ([], rest)
  if (netloc.contains '[' ∧ ¬ netloc.contains ']') ∨
     (netloc.contains ']' ∧ ¬ netloc.contains '[') then
    .error ()
  else
    let beforeFrag := beforeChar '#' rest1
    let path := beforeChar '?' beforeFrag
    let query :=
      if beforeFrag.contains '?' then (beforeFrag.dropWhile (· ≠ '?')).drop 1
      else []
    .ok { scheme := scheme, netloc := netloc, path := splitParams path, query := query }

/-! ## Embedding of `api/lightweight_detection.py` -/

/-- `self.brand_names`. -/
def brand_names : List (List Char) :=
  [str "paypal", str "amazon", str "apple", str "microsoft", str "google",
   str "facebook", str "instagram", str "twitter", str "linkedin",
   str "dropbox", str "netflix", str "spotify", str "chase",
   str "wellsfargo", str "bankofamerica", str "citibank", str "hsbc",
   str "dhl", str "fedex", str "usps", str "ups", str "walmart",
   str "ebay", str "adobe", str "office365", str "outlook", str "yahoo",
   str "aol", str "icloud", str "whatsapp", str "telegram",
   str "coinbase", str "binance", str "blockchain", str "steam",
   str "roblox"]

/-- `self.legitimate_domains` (exact root-domain allowlist). -/
def legitimate_domains : List (List Char) :=
  [str "google.com", str "facebook.com", str "microsoft.com",
   str "apple.com", str "amazon.com", str "paypal.com", str "netflix.com",
   str "dropbox.com", str "github.com", str "linkedin.com",
   str "twitter.com", str "x.com", str "instagram.com", str "youtube.com",
   str "wikipedia.org", str "reddit.com", str "stackoverflow.com",
   str "yahoo.com", str "bing.com", str "live.com", str "outlook.com",
   str "office.com", str "spotify.com", str "twitch.tv", str "adobe.com",
   str "zoom.us", str "slack.com", str "notion.so", str "chase.com",
   str "wellsfargo.com", str "bankofamerica.com", str "ebay.com",
   str "walmart.com", str "target.com", str "bestbuy.com"]

/-- `self.suspicious_tlds`. -/
def suspicious_tlds : List (List Char) :=
  [str ".tk", str ".ml", str ".ga", str ".cf", str ".gq",
   str ".top", str ".click", str ".download", str ".work",
   str ".buzz", str ".xyz", str ".club", str ".icu", str ".cam",
   str ".loan", str ".win", str ".bid", str ".stream", str ".racing",
   str ".review", str ".trade", str ".date", str ".faith",
   str ".zip", str ".mov"]

/-- `self.phishing_keywords`. -/
def phishing_keywords : List (List Char) :=
  [str "login", str "signin", str "sign-in", str "log-in", str "verify",
   str "verification", str "secure", str "security", str "update",
   str "confirm", str "account", str "suspend", str "locked",
   str "expired", str "urgent", str "alert", str "warning",
   str "password", str "credential", str "authenticate", str "validate",
   str "restore", str "recover", str "unusual", str "unauthorized",
   str "billing", str "invoice", str "payment", str "wallet", str "bank",
   str "ssn", str "social-security"]

/-- `self.shorteners`. -/
def shorteners : List (List Char) :=
  [str "bit.ly", str "tinyurl.com", str "t.co", str "goo.gl", str "is.gd",
   str "v.gd", str "buff.ly", str "ow.ly", str "short.link", str "rb.gy",
   str "cutt.ly", str "shorturl.at", str "tiny.cc", str "bc.vc",
   str "x.co"]

/-- `self.brand_phishing_patterns`, each regex `B.*(?:W1|...|Wk)` given
as the brand alternatives paired with the action-word alternatives. -/
def brand_phishing_patterns : List (List (List Char) × List (List Char)) :=
  [([str "paypal"], [str "secure", str "update", str "verify", str "login", str "confirm"]),
   ([str "amazon"], [str "account", str "suspend", str "verify", str "order"]),
   ([str "apple"], [str "id", str "locked", str "verify", str "icloud"]),
   ([str "microsoft"], [str "security", str "alert", str "office", str "login"]),
   ([str "google"], [str "verify", str "security", str "drive", str "account"]),
   ([str "facebook"], [str "disabled", str "account", str "verify"]),
   ([str "netflix"], [str "payment", str "update", str "billing", str "account"]),
   ([str "bank", str "chase", str "wells"], [str "secure", str "verify", str "login", str "alert"])]

/-- `re.search(brand.*(w1|...|wk), s)`: some action word occurs after the
end of the leftmost occurrence of some brand alternative. -/
def brandActionMatch (pat : List (List Char) × List (List Char)) (s : List Char) : Bool :=
  pat.1.any (fun b =>
    match afterFirst b s with
    | none => false
    | some rest => pat.2.any (fun w => substr (w) rest))

/-- `_get_root_domain`. -/
def get_root_domain (domain : List Char) : List Char :=
  match (splitOnChar '.' domain).reverse with
  | tld :: sld :: _ => sld ++ '.' :: tld
  | _ => domain

/-- `_char_match_ratio`'s in-order matching count (`bi`). -/
def inOrderCount : List Char → List Char → Nat
  | _, [] => 0
  | brand, c :: rest =>
    match brand with
    | [] => 0
    | b :: bs => if c = b then 1 + inOrderCount bs rest else inOrderCount (b :: bs) rest

/-- `_char_match_ratio`. -/
def char_match_ratio (brand domain : List Char) : ℚ :=
  if brand = [] then 0 else (inOrderCount brand domain : ℚ) / brand.length

/-- The typo map `{'0':'o','1':'l','3':'e','5':'s','@':'a','!':'i'}`
applied by successive `str.replace` calls (single-character replacements,
so equivalent to one map). -/
def typoDecode (l : List Char) : List Char :=
  [('0','o'), ('1','l'), ('3','e'), ('5','s'), ('@','a'), ('!','i')].foldl
    (fun acc fr => acc.map (fun c => if c = fr.1 then fr.2 else c)) l

/-- `_check_domain_spoofing`. -/
def check_domain_spoofing (domain root_domain : List Char) (is_known_legit : Bool) : Nat :=
  if is_known_legit then 0
  else
    let score := 0
    -- brand appears in domain but root is not the brand's real domain
    let score :=
      match brand_names.find? (fun brand =>
          substr (brand) domain ∧ root_domain ≠ brand ++ str ".com") with
      | some brand =>
        score + 12 +
          (if substr (brand) (removeAll root_domain domain) then 5 else 0)
      | none => score
    -- typosquatting via character substitution
    let decoded := typoDecode domain
    let score :=
      if decoded ≠ domain ∧
         brand_names.any (fun brand =>
           substr (brand) decoded ∧ ¬ substr (brand) domain) then
        score + 15
      else score
    -- fuzzy in-order character match
    let score :=
      if brand_names.any (fun brand =>
          4 ≤ brand.length ∧ char_match_ratio brand domain > 3/4 ∧
          root_domain ≠ brand ++ str ".com") then
        score + 8
      else score
    -- brand adjacent to a hyphen or underscore
    let score :=
      if brand_names.any (fun brand =>
          (substr (brand ++ ['-']) domain ∨ substr (brand ++ ['_']) domain) ∧
          root_domain ≠ brand ++ str ".com") then
        score + 10
      else score
    min score 20

/-- Non-overlapping count of `%[0-9A-Fa-f]{2}` matches (`re.findall`). -/
def pctCount : List Char → Nat
  | '%' :: a :: b :: rest =>
    if (a.isDigit ∨ ('a' ≤ a ∧ a ≤ 'f') ∨ ('A' ≤ a ∧ a ≤ 'F')) ∧
       (b.isDigit ∨ ('a' ≤ b ∧ b ≤ 'f') ∨ ('A' ≤ b ∧ b ≤ 'F')) then
      1 + pctCount rest
    else pctCount (a :: b :: rest)
  | _ :: rest => pctCount rest
  | [] => 0

/-- `_check_suspicious_patterns` (`url` is the lowered full URL). -/
def check_suspicious_patterns (url domain path query : List Char) : Nat :=
  let _ := domain
  let score := 0
  let score :=
    if brand_phishing_patterns.any (fun p => brandActionMatch p url) then score + 10
    else score
  let keyword_hits :=
    phishing_keywords.countP (fun kw => substr (kw) path || substr (kw) query)
  let score :=
    if 3 ≤ keyword_hits then score + 10
    else if 2 ≤ keyword_hits then score + 6
    else if 1 ≤ keyword_hits then score + 3
    else score
  let score :=
    if (str "data:").isPrefixOf url ∨ (str "javascript:").isPrefixOf url then score + 15
    else score
  -- `'@' in url and '@' in url.split('//')[1] if '//' in url else False`
  let score :=
    if (match afterFirst (str "//") url with
        | some rest => url.contains '@' && (beforeFirst (str "//") rest).contains '@'
        | none => false) then
      score + 10
    else score
  let score := if substr (str "//") path then score + 5 else score
  let score := if 5 < pctCount url then score + 5 else score
  min score 20

/-- `_check_url_structure` (`url` is the lowered full URL; `domain` is the
port-stripped lowered netloc, so the final port branch never fires). -/
def check_url_structure (url domain path query : List Char) : Nat :=
  let score := 0
  let score :=
    if 200 < url.length then score + 5
    else if 100 < url.length then score + 2
    else score
  let subdomain_count : ℤ := (splitOnChar '.' domain).length - 2
  let score :=
    if 4 ≤ subdomain_count then score + 8
    else if 3 ≤ subdomain_count then score + 5
    else if 2 ≤ subdomain_count then score + 2
    else score
  let score := if ¬ (str "https://").isPrefixOf url then score + 4 else score
  let score := if shorteners.any (fun s => substr (s) domain) then score + 5 else score
  let path_depth := ((splitOnChar '/' path).filter (· ≠ [])).length
  let score :=
    if 5 ≤ path_depth then score + 4
    else if 3 ≤ path_depth then score + 2
    else score
  let susp_params :=
    [str "redirect", str "url", str "next", str "return", str "goto",
     str "dest", str "redir"]
  let score :=
    if query ≠ [] ∧ susp_params.any (fun p => substr (p) query) then score + 3
    else score
  let bad_exts :=
    [str ".exe", str ".scr", str ".zip", str ".rar", str ".bat",
     str ".cmd", str ".msi"]
  let score := if bad_exts.any (fun e => substr (e) path) then score + 6 else score
  let score :=
    if domain.contains ':' then
      match splitOnChar ':' domain with
      | _ :: port :: _ =>
        if ¬ (port = str "80" ∨ port = str "443" ∨ port = str "8080" ∨
              port = str "8443") then score + 4
        else score
      | _ => score
    else score
  min score 15

/-- `re.search(r'\.(com|org|net|gov)\.[a-z]{2,}$', domain)`: the final
dot-separated label is two or more lowercase letters and the label
before it is one of the four listed TLDs with a dot in front of it. -/
def doubleTldMatch (domain : List Char) : Bool :=
  match (splitOnChar '.' domain).reverse with
  | lastp :: sndp :: _ :: _ =>
    (2 ≤ lastp.length && lastp.all (fun c => 'a' ≤ c && c ≤ 'z')) &&
      (sndp = str "com" || sndp = str "org" || sndp = str "net" || sndp = str "gov")
  | _ => false

/-- `_check_suspicious_tld`. -/
def check_suspicious_tld (domain root_domain : List Char) : Nat :=
  let _ := root_domain
  if suspicious_tlds.any (fun t => t.isSuffixOf domain) then 12
  else if doubleTldMatch domain then 8
  else 0

/-- One dotted component accepted by C `inet_aton`: decimal, `0x` hex, or
leading-zero octal. -/
def parseCNum (p : List Char) : Option Nat :=
  match p with
  | '0' :: 'x' :: rest =>
    if rest ≠ [] ∧ rest.all (fun c => c.isDigit ∨ ('a' ≤ c ∧ c ≤ 'f') ∨ ('A' ≤ c ∧ c ≤ 'F')) then
      some (rest.foldl (fun acc c =>
        acc * 16 + (if c.isDigit then c.toNat - 48
                    else if 'a' ≤ c then c.toNat - 87 else c.toNat - 55)) 0)
    else none
  | '0' :: 'X' :: rest =>
    if rest ≠ [] ∧ rest.all (fun c => c.isDigit ∨ ('a' ≤ c ∧ c ≤ 'f') ∨ ('A' ≤ c ∧ c ≤ 'F')) then
      some (rest.foldl (fun acc c =>
        acc * 16 + (if c.isDigit then c.toNat - 48
                    else if 'a' ≤ c then c.toNat - 87 else c.toNat - 55)) 0)
    else none
  | '0' :: rest =>
    if rest.all (fun c => '0' ≤ c ∧ c ≤ '7') then
      some (rest.foldl (fun acc c => acc * 8 + (c.toNat - 48)) 0)
    else none
  | _ =>
    if p ≠ [] ∧ p.all Char.isDigit then
      some (p.foldl (fun acc c => acc * 10 + (c.toNat - 48)) 0)
    else none

/-- `socket.inet_aton` acceptance (`_is_ip_address`): one to four
C-numeric components, the last fitting in the remaining bytes. -/
def is_ip_address (domain : List Char) : Bool :=
  let parts := (splitOnChar '.' domain).map parseCNum
  if parts.any (· = none) then false
  else
    let vals := parts.filterMap id
    match vals with
    | [a] => a < 2^32
    | [a, b] => a < 256 ∧ b < 2^24
    | [a, b, c] => a < 256 ∧ b < 256 ∧ c < 2^16
    | [a, b, c, d] => a < 256 ∧ b < 256 ∧ c < 256 ∧ d < 256
    | _ => false

/-- `_check_ip_address`. -/
def check_ip_address (domain : List Char) : Nat :=
  if is_ip_address (beforeChar ':' domain) then 15
  else if ((match domain with
            | '0' :: 'x' :: c :: _ => c.isDigit || ('a' ≤ c && c ≤ 'f')
            | _ => false) : Bool) ∨
          (8 ≤ domain.length ∧ domain.all Char.isDigit) then 15
  else 0

/-- The external threat-intelligence lookup, abstracted: `none` covers a
missing API key, a non-200 response, a `response_code ≠ 1`, a timeout or
any other failure — all of which make `_check_virustotal` contribute 0
(fail-open).  `some (positives, total)` is a successful report. -/
def check_virustotal (vt : Option (Nat × Nat)) : ℚ :=
  match vt with
  | none => 0
  | some (positives, total) =>
    if 0 < positives then
      -- `positives / total` raises ZeroDivisionError when total = 0,
      -- which the surrounding `except` turns into a 0 contribution.
      if total = 0 then 0 else min ((positives : ℚ) / total * 20) 20
    else 0

inductive Classification where
  | legitimate | suspicious | phishing
deriving Repr, DecidableEq

/-- The five-way heuristic breakdown (`heuristic_scores` dict). -/
structure Breakdown where
  domain_spoofing : Nat
  suspicious_patterns : Nat
  url_structure : Nat
  suspicious_tld : Nat
  ip_address : Nat
deriving Repr, DecidableEq

def Breakdown.total (b : Breakdown) : Nat :=
  b.domain_spoofing + b.suspicious_patterns + b.url_structure +
    b.suspicious_tld + b.ip_address

/-- The fields of the success dictionary returned by `analyze_url` that
the specification's claims mention. -/
structure ScanResult where
  url : List Char
  domain : List Char
  root_domain : List Char
  is_known_legit : Bool
  breakdown : Breakdown
  heuristic_score : Nat
  api_score : ℚ
  final_score : ℤ
  classification : Classification
deriving Repr, DecidableEq

/-- `analyze_url` outcome: the success dictionary, or the
`{'success': False, 'error': ...}` dictionary produced by the
`except` branch (which carries no classification). -/
inductive ScanOutcome where
  | ok (r : ScanResult)
  | failure
deriving Repr, DecidableEq

/-- The classification tier chosen from the final score
(lines 136-144 of `lightweight_detection.py`). -/
def classify (final_score : ℤ) : Classification :=
  if 60 ≤ final_score then Classification.phishing
  else if 35 ≤ final_score then Classification.suspicious
  else Classification.legitimate

/-- The success dictionary built by the try-block of `analyze_url` once
`urlparse` has succeeded. -/
def scanOf (vt : Option (Nat × Nat)) (url : List Char) (parsed : ParsedUrl) : ScanResult :=
    let domain := beforeChar ':' (lowerL parsed.netloc)
    let path := lowerL parsed.path
    let query := lowerL parsed.query
    let full_url := lowerL url
    let root_domain := get_root_domain domain
    let is_known_legit := legitimate_domains.contains root_domain
    let scores : Breakdown :=
      { domain_spoofing := check_domain_spoofing domain root_domain is_known_legit
        suspicious_patterns := check_suspicious_patterns full_url domain path query
        url_structure := check_url_structure full_url domain path query
        suspicious_tld := check_suspicious_tld domain root_domain
        ip_address := check_ip_address domain }
    -- lines 118-122: on an allowlisted root, zero every sub-score other
    -- than domain_spoofing, then zero domain_spoofing as well
    let scores :=
      if is_known_legit then
        { scores with suspicious_patterns := 0, url_structure := 0,
                      suspicious_tld := 0, ip_address := 0 }
      else scores
    let scores :=
      if is_known_legit then { scores with domain_spoofing := 0 } else scores
    let heuristic_score := min scores.total 40
    let api_score := check_virustotal vt
    let raw_score : ℚ := (heuristic_score : ℚ) + api_score
    let final_score : ℤ := min (pythonRound (raw_score / 60 * 100)) 100
    { url := url, domain := domain, root_domain := root_domain
      is_known_legit := is_known_legit, breakdown := scores
      heuristic_score := heuristic_score, api_score := api_score
      final_score := final_score, classification := classify final_score }

/-- `analyze_url` (the try-block body; the only raising operation is
`urlparse`, whose error lands in the `except` branch). -/
def analyze_url (vt : Option (Nat × Nat)) (url : List Char) : ScanOutcome :=
  match pyUrlparse url with
  | .error _ => .failure
  | .ok parsed => .ok (scanOf vt url parsed)

/-- The classification field of a scan outcome, when the scan succeeded. -/
def ScanOutcome.classOf : ScanOutcome → Option Classification
  | .ok r => some r.classification
  | .failure => none

/-- The heuristic breakdown of a scan outcome, when the scan succeeded. -/
def ScanOutcome.breakdownOf : ScanOutcome → Option Breakdown
  | .ok r => some r.breakdown
  | .failure => none

/-- The final score of a scan outcome, when the scan succeeded. -/
def ScanOutcome.finalOf : ScanOutcome → Option ℤ
  | .ok r => some r.final_score
  | .failure => none

/-- Whether `analyze_url` took the success path (`'success': True`). -/
def ScanOutcome.isSuccess : ScanOutcome → Bool
  | .ok _ => true
  | .failure => false

/-! ## Embedding of `services/feedback_review_system.py`

Timestamps are modelled as naturals: the source stores ISO-8601 strings
whose lexicographic order (used by the pending-queue sort) coincides
with chronological order.  The class-level in-memory stores and the
JSON-file stores are both modelled; the reviewed/rejected/decision logs
receive identical appends in memory and on file, so a single list
stands for each. -/

/-- `FeedbackStatus`. -/
inductive FStatus where
  | pending | approved | rejected | auto_approved | flagged
deriving Repr, DecidableEq

/-- The submission payload of `submit_user_feedback` (optional fields are
`None`-able in the source). -/
structure FeedbackInput where
  url : List Char
  correct_label : Nat
  user_comment : Option (List Char)
  confidence_level : Option Nat
  user_expertise : Option (List Char)
deriving Repr, DecidableEq

/-- The flag reason codes appended by `_run_automated_validation`. -/
inductive Flag where
  | invalid_url_format | suspicious_pattern | low_confidence
  | no_explanation | contradictory_feedback
deriving Repr, DecidableEq

/-- Result of `_run_automated_validation`. -/
structure ValidationResult where
  validation_score : ℤ
  flags : List Flag
  status : FStatus
deriving Repr, DecidableEq

/-- Whether the final dot-separated label of the host matches
`[A-Z]{2,6}` (case-insensitive). -/
def isTldLabel (p : List Char) : Bool :=
  2 ≤ p.length && p.length ≤ 6 && p.all Char.isAlpha

/-- One host label of `_is_valid_url`'s regex:
`[A-Z0-9](?:[A-Z0-9-]{0,61}[A-Z0-9])?` (case-insensitive). -/
def isHostLabel (p : List Char) : Bool :=
  match p with
  | [] => false
  | [c] => c.isAlphanum
  | c :: rest =>
    c.isAlphanum && p.length ≤ 63 &&
      (rest.dropLast.all (fun d => d.isAlphanum || d = '-')) &&
      (rest.getLast? = some (rest.getLastD ' ') && (rest.getLastD ' ').isAlphanum)

/-- `\d{1,3}` component. -/
def isOctet (p : List Char) : Bool :=
  1 ≤ p.length && p.length ≤ 3 && p.all Char.isDigit

/-- Full-host match for `_is_valid_url`'s host alternation, after
reduction of the anchored regex to a deterministic split (host
characters are alphanumeric, `-` or `.`, none of which can begin the
port or trailing-path parts). -/
def validHost (h : List Char) : Bool :=
  -- (domain-label '.')+ TLD '.'?  — strip the single optional final dot
  (let h1 := if h.getLast? = some '.' then h.dropLast else h
   match (splitOnChar '.' h1).reverse with
   | lastp :: rest => isTldLabel lastp && ¬ rest.isEmpty && rest.all isHostLabel
   | [] => false) ||
  h = str "localhost" ||
  (match splitOnChar '.' h with
   | [a, b, c, d] => isOctet a && isOctet b && isOctet c && isOctet d
   | _ => false)

/-- Python `\S` (not a whitespace character). -/
def isNonSpace (c : Char) : Bool :=
  ¬ (c = ' ' ∨ c = '\t' ∨ c = '\n' ∨ c = '\r' ∨ c = '\x0b' ∨ c = '\x0c')

/-- The trailing `(?:/?|[/?]\S+)$` of `_is_valid_url`'s regex. -/
def validUrlTail (l : List Char) : Bool :=
  l.isEmpty || l = ['/'] ||
  (match l with
   | c :: rest => (c = '/' || c = '?') && ¬ rest.isEmpty && rest.all isNonSpace
   | [] => false)

/-- The optional `(?::\d+)?` followed by the trailing part. -/
def validPortTail (l : List Char) : Bool :=
  validUrlTail l ||
  (match l with
   | ':' :: rest =>
     let ds := rest.takeWhile Char.isDigit
     ¬ ds.isEmpty && validUrlTail (rest.dropWhile Char.isDigit)
   | _ => false)

/-- `_is_valid_url`: the anchored case-insensitive regex
`^https?://(domain|localhost|ip)(?::\d+)?(?:/?|[/?]\S+)$`.  The host
cannot contain `:`, `/` or `?`, so the regex's host segment is the
maximal run of alphanumeric/`-`/`.` characters after the scheme. -/
def is_valid_url (url : List Char) : Bool :=
  let u := lowerL url
  let afterScheme :=
    if (str "https://").isPrefixOf u then some (u.drop 8)
    else if (str "http://").isPrefixOf u then some (u.drop 7)
    else none
  match afterScheme with
  | none => false
  | some rest =>
    let hostPart := rest.takeWhile (fun c => c.isAlphanum || c = '-' || c = '.')
    let tail := rest.dropWhile (fun c => c.isAlphanum || c = '-' || c = '.')
    validHost hostPart && validPortTail tail

/-- `_check_suspicious_patterns` of the feedback system (spam phrasing or
an extremely short comment). -/
def feedback_suspicious (inp : FeedbackInput) : Bool :=
  let comment := lowerL (inp.user_comment.getD [])
  let spam_keywords :=
    [str "spam", str "click here", str "free", str "money", str "win",
     str "congratulations"]
  spam_keywords.any (fun k => substr k comment) ||
    (¬ comment.isEmpty && comment.length < 5)

/-- `_check_contradictions`. -/
def check_contradictions (inp : FeedbackInput) : Bool :=
  let url := lowerL inp.url
  let comment := lowerL (inp.user_comment.getD [])
  let trusted :=
    [str "google.com", str "github.com", str "microsoft.com", str "apple.com"]
  inp.correct_label = 1 && trusted.any (fun d => substr d url) &&
    ¬ ([str "fake", str "spoof", str "suspicious"].any (fun w => substr w comment))

/-- The decision chain of `_run_automated_validation` (lines 163-170). -/
def decideStatus (score : ℤ) (flags : List Flag) : FStatus :=
  if 5 ≤ score ∧ flags = [] then FStatus.auto_approved
  else if 2 < flags.length ∨ flags.contains Flag.suspicious_pattern then FStatus.flagged
  else FStatus.pending

/-- `_run_automated_validation`.  Note the Python dict lookups: the keys
are always present (placed by `submit_user_feedback`), so the `.get`
defaults never apply and `None` values flow through the truthiness
tests. -/
def run_automated_validation (inp : FeedbackInput) : ValidationResult :=
  let flags : List Flag := []
  -- 1. URL format
  let flags := flags ++ (if ¬ is_valid_url inp.url then [Flag.invalid_url_format] else [])
  -- 2. suspicious feedback patterns
  let flags := flags ++ (if feedback_suspicious inp then [Flag.suspicious_pattern] else [])
  -- 3. confidence level (`confidence and confidence >= 4`)
  let confTruthy : Bool := match inp.confidence_level with
                           | some c => c != 0
                           | none => false
  let conf := inp.confidence_level.getD 0
  let score : ℤ := if confTruthy ∧ 4 ≤ conf then 2 else 0
  let flags := flags ++
    (if ¬ (confTruthy ∧ 4 ≤ conf) ∧ (confTruthy ∧ conf ≤ 2) then [Flag.low_confidence] else [])
  -- 4. expertise
  let expertise := lowerL (inp.user_expertise.getD [])
  let score := if expertise = str "expert" then score + 3
               else if expertise = str "beginner" then score - 1
               else score
  -- 5. comment quality
  let commentTruthy : Bool := match inp.user_comment with
                              | some c => ! c.isEmpty
                              | none => false
  let score := if commentTruthy ∧ 20 < (inp.user_comment.getD []).length then score + 1
               else score
  let flags := flags ++
    (if ¬ (commentTruthy ∧ 20 < (inp.user_comment.getD []).length) ∧ ¬ commentTruthy then
       [Flag.no_explanation]
     else [])
  -- 6. contradictions
  let flags := flags ++ (if check_contradictions inp then [Flag.contradictory_feedback] else [])
  -- decision logic
  { validation_score := score, flags := flags, status := decideStatus score flags }

/-- A stored feedback record (the dict built by `submit_user_feedback`,
restricted to the fields the review machinery reads). -/
structure FB where
  feedback_id : String
  timestamp : Nat
  url : List Char
  correct_label : Nat
  status : FStatus
  validation_score : ℤ
  flags : List Flag
deriving Repr, DecidableEq

/-- An entry of the approved training dataset
(`_add_to_training_dataset`'s `new_entry`; the source stores no
validation score in it). -/
structure CorpusEntry where
  url : List Char
  label : Nat
  feedback_id : String
  timestamp : Nat
deriving Repr, DecidableEq

/-- `_memory_quality_metrics`. -/
structure QualityMetrics where
  total_reviewed : Nat
  approved : Nat
  rejected : Nat
deriving Repr, DecidableEq

/-- One audit entry of `_log_admin_decision` (`original_feedback` is the
record after any in-place status mutation). -/
structure AdminDecision where
  feedback_id : String
  decision : String
  original_feedback : FB
deriving Repr, DecidableEq

/-- The mutable state of `FeedbackReviewSystem`: the pending JSON file,
the class-level `_memory_pending` store, and the reviewed / rejected /
dataset / metrics / decision-log stores (memory and file receive the
same appends, so one list stands for each). -/
structure RState where
  filePending : List FB
  memPending : List FB
  reviewed : List FB
  rejectedStore : List FB
  dataset : List CorpusEntry
  metrics : QualityMetrics
  decisions : List AdminDecision
deriving Repr, DecidableEq

/-- ASCII `str.lower()` on a `String` (used on the admin decision). -/
def lowerS (s : String) : String := ⟨lowerL s.data⟩

/-- Remove the first list element with the given feedback id, returning
it (the `enumerate`/`pop` loop of `admin_review_feedback`). -/
def popFirst (fid : String) : List FB → Option FB × List FB
  | [] => (none, [])
  | x :: xs =>
    if x.feedback_id = fid then (some x, xs)
    else
      let r := popFirst fid xs
      (r.1, x :: r.2)

/-- `_add_to_training_dataset` on the class-level memory store: append
only when the exact URL is not already present (the existing entry is
kept on conflict). -/
def add_to_training_dataset (d : List CorpusEntry) (item : FB) : List CorpusEntry :=
  let new_entry : CorpusEntry :=
    { url := item.url, label := item.correct_label,
      feedback_id := item.feedback_id, timestamp := item.timestamp }
  if d.any (fun e => e.url = new_entry.url) then d else d ++ [new_entry]

/-- `_update_quality_metrics`: any decision other than (case-insensitive)
`approve` is counted as a rejection. -/
def update_quality_metrics (m : QualityMetrics) (decision : String) : QualityMetrics :=
  { total_reviewed := m.total_reviewed + 1
    approved := if lowerS decision = "approve" then m.approved + 1 else m.approved
    rejected := if lowerS decision = "approve" then m.rejected else m.rejected + 1 }

/-- Result dict of `admin_review_feedback`. -/
structure ReviewResult where
  success : Bool
  message : String
deriving Repr, DecidableEq

/-- The two-step lookup of `admin_review_feedback`: pop from the pending
file first, else search `_memory_pending` (no status filter in either). -/
def find_open (st : RState) (fid : String) : Option FB :=
  match (popFirst fid st.filePending).1 with
  | some it => some it
  | none => st.memPending.find? (fun r => r.feedback_id = fid)

/-- `admin_review_feedback`: pop the record from the pending file, else
look it up (without removing and without any status filter) in
`_memory_pending`; on `approve` mark approved, extend the dataset and
the reviewed store; on `reject` mark rejected and extend the rejected
store; on any other decision leave the status untouched; always log the
decision, purge the id from `_memory_pending`, write the file back and
bump the metrics. -/
def admin_review_feedback (st : RState) (fid : String) (decision : String) : RState × ReviewResult :=
  match find_open st fid with
  | none => (st, { success := false, message := "Feedback not found" })
  | some it =>
    let step :=
      if lowerS decision = "approve" then
        let it' := { it with status := FStatus.approved }
        (it', add_to_training_dataset st.dataset it', st.reviewed ++ [it'], st.rejectedStore)
      else if lowerS decision = "reject" then
        let it' := { it with status := FStatus.rejected }
        (it', st.dataset, st.reviewed, st.rejectedStore ++ [it'])
      else
        (it, st.dataset, st.reviewed, st.rejectedStore)
    ({ filePending := (popFirst fid st.filePending).2
       memPending := st.memPending.filter (fun r => r.feedback_id ≠ fid)
       reviewed := step.2.2.1
       rejectedStore := step.2.2.2
       dataset := step.2.1
       metrics := update_quality_metrics st.metrics decision
       decisions := st.decisions ++
         [{ feedback_id := fid, decision := decision, original_feedback := step.1 }] },
     { success := true, message := "Feedback " ++ decision ++ "d successfully" })

/-- `submit_user_feedback`: build the record, run automated validation,
and append it to both the memory store and the pending file. -/
def submit_user_feedback (st : RState) (fid : String) (ts : Nat) (inp : FeedbackInput) :
    RState × FStatus :=
  let v := run_automated_validation inp
  let record : FB :=
    { feedback_id := fid, timestamp := ts, url := inp.url,
      correct_label := inp.correct_label, status := v.status,
      validation_score := v.validation_score, flags := v.flags }
  ({ st with memPending := st.memPending ++ [record],
             filePending := st.filePending ++ [record] },
   v.status)

/-- Sort key of `get_pending_feedback`: flagged records first. -/
def tierOf (f : FB) : Nat := if f.status = FStatus.flagged then 0 else 1

/-- The boolean `≤` on the `(tier, timestamp)` sort key. -/
def keyLe (a b : FB) : Bool :=
  decide (tierOf a < tierOf b ∨ (tierOf a = tierOf b ∧ a.timestamp ≤ b.timestamp))

/-- Stable insertion into a sorted list (Python `list.sort` is stable;
insertion before the first strictly-later element reproduces it). -/
def insOrd (le : FB → FB → Bool) (x : FB) : List FB → List FB
  | [] => [x]
  | y :: ys => if le x y then x :: y :: ys else y :: insOrd le x ys

/-- Stable sort by the boolean order `le`. -/
def sortOrd (le : FB → FB → Bool) : List FB → List FB
  | [] => []
  | x :: xs => insOrd le x (sortOrd le xs)

/-- The merge step of `get_pending_feedback`: the memory store followed
by the file items whose id is not already present in it. -/
def merged_feedback (st : RState) : List FB :=
  st.memPending ++
    st.filePending.filter (fun f =>
      ¬ st.memPending.any (fun m => m.feedback_id = f.feedback_id))

/-- The open queue: merged records whose status is pending or flagged. -/
def open_feedback (st : RState) : List FB :=
  (merged_feedback st).filter (fun f =>
    f.status = FStatus.pending ∨ f.status = FStatus.flagged)

/-- `get_pending_feedback(limit)`: merge the memory store with the file
items whose id is not already present, keep `pending`/`flagged`
records, sort flagged-first then oldest-first, and truncate. -/
def get_pending_feedback (st : RState) (limit : Nat) : List FB :=
  (sortOrd keyLe (open_feedback st)).take limit

/-! ## Embedding of `services/admin_auth.py`

Tokens are byte lists.  HMAC-SHA256 is abstracted as a parameter
`hmacHex : secret → message → hex-digest bytes`; every property proved
below holds for an arbitrary such function (the hex digest of the
source contains no `:`, which is taken as a hypothesis where needed).
`58` is the byte of `:`. -/

/-- The urlsafe base64 alphabet, as the byte of the character encoding
the sextet. -/
def b64chr (s : Nat) : Nat :=
  if s < 26 then 65 + s
  else if s < 52 then 97 + (s - 26)
  else if s < 62 then 48 + (s - 52)
  else if s = 62 then 45
  else 95

/-- Inverse alphabet lookup; `none` on a byte outside the urlsafe
alphabet (such bytes are discarded by `base64.urlsafe_b64decode`). -/
def b64val (c : Nat) : Option Nat :=
  if 65 ≤ c ∧ c ≤ 90 then some (c - 65)
  else if 97 ≤ c ∧ c ≤ 122 then some (c - 97 + 26)
  else if 48 ≤ c ∧ c ≤ 57 then some (c - 48 + 52)
  else if c = 45 then some 62
  else if c = 95 then some 63
  else none

/-- The sextet stream of base64 encoding (before the alphabet map;
the trailing `=` padding of the final group is already stripped, as the
source does with `.rstrip('=')`). -/
def b64sextets : List Nat → List Nat
  | [] => []
  | [a] => [a / 4, a % 4 * 16]
  | [a, b] => [a / 4, a % 4 * 16 + b / 16, b % 16 * 4]
  | a :: b :: c :: rest =>
    a / 4 :: (a % 4 * 16 + b / 16) :: (b % 16 * 4 + c / 64) :: c % 64 ::
      b64sextets rest

/-- `base64.urlsafe_b64encode(payload).decode().rstrip('=')`. -/
def b64urlEncode (payload : List Nat) : List Nat :=
  (b64sextets payload).map b64chr

/-- Decode a sextet stream back into bytes; a leftover group of one
sextet is the padding error `binascii` raises (caught by the caller). -/
def b64quads : List Nat → Option (List Nat)
  | [] => some []
  | [_] => none
  | [s1, s2] => some [s1 * 4 + s2 / 16]
  | [s1, s2, s3] => some [s1 * 4 + s2 / 16, s2 % 16 * 16 + s3 / 4]
  | s1 :: s2 :: s3 :: s4 :: rest =>
    (b64quads rest).map
      (fun tail => (s1 * 4 + s2 / 16) :: (s2 % 16 * 16 + s3 / 4) ::
                   (s3 % 4 * 64 + s4) :: tail)

/-- `base64.urlsafe_b64decode(s + '==' * (4 - len(s) % 4))`: bytes
outside the alphabet are discarded, the re-appended padding closes the
final group. -/
def b64urlDecode (l : List Nat) : Option (List Nat) :=
  b64quads (l.filterMap b64val)

/-- Structural (fuel-indexed) worker for `natDigits`; the fuel bounds
the digit count, so the `0` case is unreachable. -/
def natDigitsAux : Nat → Nat → List Nat
  | 0, _ => []
  | fuel + 1, n =>
    if n < 10 then [48 + n]
    else natDigitsAux fuel (n / 10) ++ [48 + n % 10]

/-- ASCII decimal digits of a natural (`str(n)` / f-string interpolation
of the expiry timestamp). -/
def natDigits (n : Nat) : List Nat := natDigitsAux (n + 1) n

/-- Python `int(s)` restricted to plain decimal digit strings (the only
form produced by token generation). -/
def parsePyNat (l : List Nat) : Option Nat :=
  if l ≠ [] ∧ l.all (fun c => 48 ≤ c ∧ c ≤ 57) then
    some (l.foldl (fun acc c => acc * 10 + (c - 48)) 0)
  else none

/-- `s.rsplit(sep, 1)` / `token.rfind(sep)`: split at the last
occurrence of the separator; `none` when it does not occur. -/
def rsplitLast (sep : Nat) : List Nat → Option (List Nat × List Nat)
  | [] => none
  | a :: rest =>
    match rsplitLast sep rest with
    | some pr => some (a :: pr.1, pr.2)
    | none => if a = sep then some ([], rest) else none

/-- A legacy dict-based session (`_class_sessions` value). -/
structure LegacySession where
  username : List Nat
  expiry : Nat
deriving Repr, DecidableEq

/-- The validated-session dict returned by `validate_token`. -/
structure SessionInfo where
  username : List Nat
  expiry : Nat
deriving Repr, DecidableEq

/-- `_generate_session_token`: `base64url(username:expiry)` ++ `:` ++
`hexdigest(HMAC(secret, encoded_payload))`. -/
def generate_session_token (hmacHex : List Nat → List Nat → List Nat)
    (secret username : List Nat) (expiry_ts : Nat) : List Nat :=
  let payload := username ++ 58 :: natDigits expiry_ts
  let encoded_payload := b64urlEncode payload
  let signature := hmacHex secret encoded_payload
  encoded_payload ++ 58 :: signature

/-- `validate_token`: revocation check, split at the last `:`
(no `:` falls back to the legacy session dict), constant-time HMAC
comparison, base64 decode, `rsplit(':', 1)` of the payload, expiry
check.  Any decoding failure is caught and returns `None`. -/
def validate_token (hmacHex : List Nat → List Nat → List Nat)
    (secret : List Nat) (revoked : List (List Nat))
    (sessions : List (List Nat × LegacySession)) (now : Nat)
    (token : List Nat) : Option SessionInfo :=
  if token = [] then none
  else if token ∈ revoked then none
  else
    match rsplitLast 58 token with
    | none =>
      match sessions.find? (fun s => s.1 = token) with
      | some s => if now ≤ s.2.expiry then
                    some { username := s.2.username, expiry := s.2.expiry }
                  else none
      | none => none
    | some (encoded_payload, provided_sig) =>
      if hmacHex secret encoded_payload = provided_sig then
        match b64urlDecode encoded_payload with
        | none => none
        | some payload =>
          match rsplitLast 58 payload with
          | none => none
          | some (username, expiry_str) =>
            match parsePyNat expiry_str with
            | none => none
            | some expiry_ts =>
              if expiry_ts < now then none
              else some { username := username, expiry := expiry_ts }
      else none

/-- `revoke_token`: add the token to the class-level revocation set
(nothing ever removes a token from it). -/
def revoke_token (revoked : List (List Nat)) (token : List Nat) : List (List Nat) :=
  if token ∈ revoked then revoked else token :: revoked

/-- A submission with confidence 5, expert expertise, a valid URL, a
substantial non-spam comment and no contradiction (the scenario of the
claim's "in particular" instance). -/
def expertSubmission : FeedbackInput :=
  { url := str "https://example-site.com/page-one", correct_label := 0,
    user_comment := some (str "This site is a perfectly normal business page."),
    confidence_level := some 5, user_expertise := some (str "expert") }

/-- A low-validation-score pending record. -/
def fbLow : FB :=
  { feedback_id := "fb1", timestamp := 1, url := str "http://phish-example.tk/login",
    correct_label := 1, status := FStatus.pending, validation_score := 1, flags := [] }

/-- A later, higher-validation-score pending record for the same URL. -/
def fbHigh : FB :=
  { feedback_id := "fb2", timestamp := 2, url := str "http://phish-example.tk/login",
    correct_label := 1, status := FStatus.pending, validation_score := 6, flags := [] }

/-- A review-system state with the two same-URL records pending. -/
def twoPendingState : RState :=
  { filePending := [fbLow, fbHigh], memPending := [fbLow, fbHigh],
    reviewed := [], rejectedStore := [], dataset := [],
    metrics := { total_reviewed := 0, approved := 0, rejected := 0 }, decisions := [] }

/-- The empty review-system state. -/
def emptyRState : RState :=
  { filePending := [], memPending := [], reviewed := [], rejectedStore := [],
    dataset := [], metrics := { total_reviewed := 0, approved := 0, rejected := 0 },
    decisions := [] }

/-- The state after submitting the auto-approvable expert feedback. -/
def autoApprovedState : RState :=
  (submit_user_feedback emptyRState "fb9" 1 expertSubmission).1

/-- A concrete stand-in HMAC for the witnesses: a fixed colon-free hex
digest. -/
def constSig : List Nat → List Nat → List Nat := fun s m => [97] ++ s.take 0 ++ m.take 0

/-! ## Supporting lemmas -/

theorem pythonRound_nonneg {q : ℚ} (h : 0 ≤ q) : 0 ≤ pythonRound q := by
  have hf : (0 : ℤ) ≤ ⌊q⌋ := Int.floor_nonneg.mpr h
  unfold pythonRound
  dsimp only
  split
  · exact hf
  · split
    · omega
    · split
      · exact hf
      · omega


theorem check_virustotal_nonneg (vt : Option (Nat × Nat)) : 0 ≤ check_virustotal vt := by
  unfold check_virustotal
  cases vt with
  | none => exact le_refl 0
  | some pt =>
    dsimp only
    split
    · split
      · exact le_refl 0
      · refine le_min ?_ (by norm_num)
        apply mul_nonneg (div_nonneg (by positivity) (by positivity)) (by norm_num)
    · exact le_refl 0

theorem classify_phishing_iff (f : ℤ) : classify f = Classification.phishing ↔ 60 ≤ f := by
  unfold classify
  split_ifs with h1 h2 <;> simp_all <;> omega

theorem classify_suspicious_iff (f : ℤ) :
    classify f = Classification.suspicious ↔ 35 ≤ f ∧ f < 60 := by
  unfold classify
  split_ifs with h1 h2 <;> simp_all <;> omega

theorem classify_legitimate_iff (f : ℤ) : classify f = Classification.legitimate ↔ f < 35 := by
  unfold classify
  split_ifs with h1 h2 <;> simp_all <;> omega

/-! ## Claim theorems -/

/-- C2: for every analysed URL, `heuristicScore` is the sum of the five
sub-scores capped at 40, `finalScore = round(raw/60*100)` clamped to
100 where `raw = heuristicScore + reputationScore` and the reputation
contribution is 0 when the lookup is absent or fails (`vt = none`);
hence `0 ≤ finalScore ≤ 100`, and the classification is `phishing` iff
`finalScore ≥ 60`, `suspicious` iff `35 ≤ finalScore < 60`, and
`legitimate` iff `finalScore < 35`. -/
theorem score_aggregation_spec (vt : Option (Nat × Nat)) (url : List Char)
    (r : ScanResult) (h : analyze_url vt url = ScanOutcome.ok r) :
    r.heuristic_score = min r.breakdown.total 40 ∧
    r.final_score =
      min (pythonRound (((r.heuristic_score : ℚ) + r.api_score) / 60 * 100)) 100 ∧
    (vt = none → r.api_score = 0) ∧
    0 ≤ r.final_score ∧ r.final_score ≤ 100 ∧
    (r.classification = Classification.phishing ↔ 60 ≤ r.final_score) ∧
    (r.classification = Classification.suspicious ↔ 35 ≤ r.final_score ∧ r.final_score < 60) ∧
    (r.classification = Classification.legitimate ↔ r.final_score < 35) := by
  unfold analyze_url at h
  cases hp : pyUrlparse url with
  | error e => rw [hp] at h; cases h
  | ok parsed =>
    rw [hp] at h
    have hr : r = scanOf vt url parsed := (ScanOutcome.ok.injEq _ _).mp h.symm
    subst hr
    refine ⟨rfl, rfl, ?_, ?_, ?_, ?_, ?_, ?_⟩
    · intro hv; subst hv; rfl
    · -- 0 ≤ final score
      show 0 ≤ min (pythonRound _) 100
      refine le_min (pythonRound_nonneg ?_) (by norm_num)
      have h1 : (0:ℚ) ≤ ((min (scanOf vt url parsed).breakdown.total 40 : Nat) : ℚ) :=
        Nat.cast_nonneg _
      have h2 := check_virustotal_nonneg vt
      apply mul_nonneg (div_nonneg (add_nonneg h1 h2) (by norm_num)) (by norm_num)
    · exact min_le_right _ _
    · exact classify_phishing_iff _
    · exact classify_suspicious_iff _
    · exact classify_legitimate_iff _

/-- C2 witness: the theorem applied to the concrete scan of
`https://192.168.1.1/secure` (final score 33, classification
`legitimate`). -/
theorem score_aggregation_spec_witness :
    ∃ r, analyze_url none (str "https://192.168.1.1/secure") = ScanOutcome.ok r ∧
      (r.heuristic_score = min r.breakdown.total 40 ∧
       r.final_score =
         min (pythonRound (((r.heuristic_score : ℚ) + r.api_score) / 60 * 100)) 100 ∧
       ((none : Option (Nat × Nat)) = none → r.api_score = 0) ∧
       0 ≤ r.final_score ∧ r.final_score ≤ 100 ∧
       (r.classification = Classification.phishing ↔ 60 ≤ r.final_score) ∧
       (r.classification = Classification.suspicious ↔ 35 ≤ r.final_score ∧ r.final_score < 60) ∧
       (r.classification = Classification.legitimate ↔ r.final_score < 35)) := by
  refine ⟨{ url := str "https://192.168.1.1/secure",
            domain := str "192.168.1.1", root_domain := str "1.1",
            is_known_legit := false,
            breakdown := { domain_spoofing := 0, suspicious_patterns := 3,
                           url_structure := 2, suspicious_tld := 0, ip_address := 15 },
            heuristic_score := 20, api_score := 0, final_score := 33,
            classification := Classification.legitimate }, ?_, ?_⟩
  · decide
  · exact score_aggregation_spec none (str "https://192.168.1.1/secure") _ (by decide)

/-- C1: evaluation at the failing input.  For
`http://paypal.login.google.com/verify` the root domain `google.com` is
on the allowlist, and the engine reports a `domain_spoofing` sub-score
of 0 (the allowlist zeroes it at line 122 after `_check_domain_spoofing`
already returned 0 for `is_known_legit`), even though
`_check_domain_spoofing` on that host scores a full 20 when the
allowlist flag is not applied — so the allowlist match alone does zero
the domain-spoofing sub-score, contradicting the claim and the source's
own adjacent comment. -/
theorem allowlist_zeroes_domain_spoofing :
    (analyze_url none (str "http://paypal.login.google.com/verify")).breakdownOf =
      some { domain_spoofing := 0, suspicious_patterns := 0, url_structure := 0,
             suspicious_tld := 0, ip_address := 0 } ∧
    legitimate_domains.contains (get_root_domain (str "paypal.login.google.com")) = true ∧
    check_domain_spoofing (str "paypal.login.google.com") (str "google.com") false = 20 := by
  refine ⟨by decide, by decide, by decide⟩

/-- C8 counterexample: `analyze_url` on the unparseable input
`http://[::1` (for which `urlparse` raises Invalid IPv6 URL) takes the
`except` branch and returns the `success: False` error dictionary — it
does not fall back to best-effort host extraction and produces no
classification. -/
theorem unparseable_url_no_classification :
    analyze_url none (str "http://[::1") = ScanOutcome.failure ∧
    (analyze_url none (str "http://[::1")).classOf = none ∧
    (analyze_url none (str "http://[::1")).isSuccess = false := by
  refine ⟨by decide, by decide, by decide⟩

/-- C8 amended: `analyze_url` never raises for any input string: either
parsing succeeds and a scan result with one of the three classification
tiers is produced, or `urlparse` fails and the caught exception yields
the `success: False` record (with no classification) instead of a
best-effort classification. -/
theorem analyze_url_total (vt : Option (Nat × Nat)) (url : List Char) :
    (∃ r, analyze_url vt url = ScanOutcome.ok r ∧
      (r.classification = Classification.legitimate ∨
       r.classification = Classification.suspicious ∨
       r.classification = Classification.phishing)) ∨
    (pyUrlparse url = Except.error () ∧ analyze_url vt url = ScanOutcome.failure) := by
  unfold analyze_url
  cases hp : pyUrlparse url with
  | error e => exact Or.inr ⟨rfl, rfl⟩
  | ok parsed =>
    refine Or.inl ⟨scanOf vt url parsed, rfl, ?_⟩
    show (classify _ = _) ∨ (classify _ = _) ∨ (classify _ = _)
    unfold classify
    split_ifs <;> simp

theorem decideStatus_auto_iff (s : ℤ) (f : List Flag) :
    decideStatus s f = FStatus.auto_approved ↔ 5 ≤ s ∧ f = [] := by
  unfold decideStatus
  split_ifs with h1 h2 <;> simp_all

/-- C3 counterexample: the claim's own best-case submission (confidence
5, expert, valid URL, no spam, no contradiction, substantial comment)
is auto-approved with `validation_score = 6` — flag-free, yet far below
80, refuting both "auto-approved exactly when `validationScore ≥ 80`"
and "yields `validationScore ≥ 80`". -/
theorem auto_approval_score_counterexample :
    (run_automated_validation expertSubmission).status = FStatus.auto_approved ∧
    (run_automated_validation expertSubmission).flags = [] ∧
    (run_automated_validation expertSubmission).validation_score = 6 ∧
    ¬ (80 ≤ (run_automated_validation expertSubmission).validation_score) := by
  refine ⟨by decide, by decide, by decide, by decide⟩

/-- C3 amended: a feedback record is auto-approved exactly when its
validation score is at least 5 (on the review system's scale, whose
maximum is 6) and its flag set is empty; and every submission with
confidence 5, expert expertise, a valid URL format, no spam/short
comment pattern, no contradiction, and a comment longer than 20
characters scores exactly 6 and is auto-approved. -/
theorem auto_approval_amended (inp : FeedbackInput) :
    ((run_automated_validation inp).status = FStatus.auto_approved ↔
      5 ≤ (run_automated_validation inp).validation_score ∧
      (run_automated_validation inp).flags = []) ∧
    (inp.confidence_level = some 5 →
     lowerL (inp.user_expertise.getD []) = str "expert" →
     is_valid_url inp.url = true →
     feedback_suspicious inp = false →
     check_contradictions inp = false →
     (∀ c, inp.user_comment = some c → 20 < c.length) →
     (∃ c, inp.user_comment = some c) →
     (run_automated_validation inp).validation_score = 6 ∧
     (run_automated_validation inp).status = FStatus.auto_approved) := by
  constructor
  · exact decideStatus_auto_iff (run_automated_validation inp).validation_score
      (run_automated_validation inp).flags
  · rintro h5 hexp hurl hsusp hcontr hlen ⟨c, hc⟩
    have hclen : 20 < c.length := hlen c hc
    have hcne : c.isEmpty = false := by
      cases c with
      | nil => simp at hclen
      | cons a as => rfl
    have hscore : (run_automated_validation inp).validation_score = 6 := by
      unfold run_automated_validation
      simp only [h5, hexp, hurl, hsusp, hcontr, hc, hcne]
      norm_num [hclen]
    refine ⟨hscore, ?_⟩
    have hflags : (run_automated_validation inp).flags = [] := by
      unfold run_automated_validation
      simp only [h5, hexp, hurl, hsusp, hcontr, hc, hcne]
      norm_num [hclen]
    have hst : (run_automated_validation inp).status =
        decideStatus (run_automated_validation inp).validation_score
          (run_automated_validation inp).flags := rfl
    rw [hst, hscore, hflags]
    decide

/-- C3 witness: the amended theorem applied to the concrete expert
submission, discharging each hypothesis. -/
theorem auto_approval_amended_witness :
    ((run_automated_validation expertSubmission).status = FStatus.auto_approved ↔
      5 ≤ (run_automated_validation expertSubmission).validation_score ∧
      (run_automated_validation expertSubmission).flags = []) ∧
    ((run_automated_validation expertSubmission).validation_score = 6 ∧
     (run_automated_validation expertSubmission).status = FStatus.auto_approved) :=
  ⟨(auto_approval_amended expertSubmission).1,
   (auto_approval_amended expertSubmission).2 (by decide) (by decide) (by decide)
     (by decide) (by decide)
     (fun c hc => (Option.some.inj hc) ▸
       (by decide : 20 < (str "This site is a perfectly normal business page.").length))
     ⟨str "This site is a perfectly normal business page.", rfl⟩⟩

/-- C4 counterexample: approving the low-score record and then the
high-score record for the same URL leaves the training corpus holding
only the low-score record's entry — the retained entry is the first
approved, not the one with the higher validation score. -/
theorem corpus_keeps_first_not_highest :
    (admin_review_feedback
        (admin_review_feedback twoPendingState "fb1" "approve").1
        "fb2" "approve").1.dataset =
      [{ url := str "http://phish-example.tk/login", label := 1,
         feedback_id := "fb1", timestamp := 1 }] ∧
    fbLow.validation_score < fbHigh.validation_score := by
  refine ⟨by decide, by decide⟩

/-- C4 amended: the corpus invariant that holds of the code — at most
one entry per (exact) URL: `_add_to_training_dataset` preserves URL
nodup-ness, keeps the store unchanged when the URL is already present
(the first approved entry wins regardless of validation score), and
appends the new entry otherwise. -/
theorem corpus_dedup_amended (d : List CorpusEntry) (it : FB) :
    ((d.map CorpusEntry.url).Nodup →
      ((add_to_training_dataset d it).map CorpusEntry.url).Nodup) ∧
    ((∃ e ∈ d, e.url = it.url) → add_to_training_dataset d it = d) ∧
    ((∀ e ∈ d, e.url ≠ it.url) →
      add_to_training_dataset d it =
        d ++ [{ url := it.url, label := it.correct_label,
                feedback_id := it.feedback_id, timestamp := it.timestamp }]) := by
  unfold add_to_training_dataset
  by_cases hany : d.any (fun e => e.url = it.url)
  · simp only [hany, if_pos]
    obtain ⟨e, he, heq⟩ := List.any_eq_true.mp hany
    refine ⟨fun h => h, fun _ => trivial, fun hall => ?_⟩
    exact absurd (of_decide_eq_true heq) (hall e he)
  · rw [Bool.not_eq_true] at hany
    simp only [hany, Bool.false_eq_true, if_neg, not_false_iff]
    have hnotin : it.url ∉ d.map CorpusEntry.url := by
      intro hmem
      obtain ⟨e, he, heq⟩ := List.mem_map.mp hmem
      have := List.any_eq_false.mp hany e he
      simp [heq] at this
    refine ⟨fun h => ?_, fun hex => ?_, fun _ => trivial⟩
    · rw [List.map_append]
      exact List.nodup_append.mpr
        ⟨h, List.nodup_singleton _, fun a ha hb => by
          simp only [List.map_cons, List.map_nil, List.mem_singleton] at hb
          exact hnotin (hb ▸ ha)⟩
    · obtain ⟨e, he, heq⟩ := hex
      have := List.any_eq_false.mp hany e he
      simp [heq] at this

/-- C4 witness: the amended theorem applied to a concrete one-entry
corpus, discharging each hypothesis. -/
theorem corpus_dedup_amended_witness :
    (([{ url := str "http://a.tk", label := 1, feedback_id := "x", timestamp := 0 }]
        : List CorpusEntry).map CorpusEntry.url).Nodup ∧
    ((add_to_training_dataset
        [{ url := str "http://a.tk", label := 1, feedback_id := "x", timestamp := 0 }]
        fbLow).map CorpusEntry.url).Nodup ∧
    add_to_training_dataset
        [{ url := str "http://a.tk", label := 1, feedback_id := "x", timestamp := 0 }]
        fbLow =
      [{ url := str "http://a.tk", label := 1, feedback_id := "x", timestamp := 0 },
       { url := fbLow.url, label := fbLow.correct_label,
         feedback_id := fbLow.feedback_id, timestamp := fbLow.timestamp }] := by
  have h := corpus_dedup_amended
    [{ url := str "http://a.tk", label := 1, feedback_id := "x", timestamp := 0 }] fbLow
  refine ⟨by decide, h.1 (by decide), h.2.2 (by decide)⟩

theorem popFirst_eq_none {fid : String} {l : List FB}
    (h : ∀ x ∈ l, x.feedback_id ≠ fid) : popFirst fid l = (none, l) := by
  induction l with
  | nil => rfl
  | cons x xs ih =>
    have hx : ¬ (x.feedback_id = fid) := h x (List.mem_cons_self x xs)
    have ih' := ih (fun y hy => h y (List.mem_cons_of_mem x hy))
    simp [popFirst, hx, ih']

theorem popFirst_fst_none {fid : String} {l : List FB}
    (h : (popFirst fid l).1 = none) :
    (popFirst fid l).2 = l ∧ ∀ x ∈ l, x.feedback_id ≠ fid := by
  induction l with
  | nil => exact ⟨rfl, by simp⟩
  | cons x xs ih =>
    by_cases hx : x.feedback_id = fid
    · exfalso; simp [popFirst, hx] at h
    · have h' : (popFirst fid xs).1 = none := by simpa [popFirst, hx] using h
      obtain ⟨h2, h3⟩ := ih h'
      refine ⟨by simp [popFirst, hx, h2], ?_⟩
      intro y hy
      rcases List.mem_cons.mp hy with rfl | hy'
      · exact hx
      · exact h3 y hy'

theorem popFirst_fst_some {fid : String} {l : List FB} {it : FB}
    (hnd : (l.map FB.feedback_id).Nodup) (h : (popFirst fid l).1 = some it) :
    ∀ x ∈ (popFirst fid l).2, x.feedback_id ≠ fid := by
  induction l with
  | nil => simp [popFirst] at h
  | cons x xs ih =>
    rw [List.map_cons, List.nodup_cons] at hnd
    by_cases hx : x.feedback_id = fid
    · intro y hy hyfid
      have hsnd : (popFirst fid (x :: xs)).2 = xs := by simp [popFirst, hx]
      rw [hsnd] at hy
      exact hnd.1 (hx ▸ hyfid ▸ List.mem_map_of_mem FB.feedback_id hy)
    · have h' : (popFirst fid xs).1 = some it := by simpa [popFirst, hx] using h
      intro y hy
      have hsnd : (popFirst fid (x :: xs)).2 = x :: (popFirst fid xs).2 := by
        simp [popFirst, hx]
      rw [hsnd] at hy
      rcases List.mem_cons.mp hy with rfl | hy'
      · exact hx
      · exact ih hnd.2 h' y hy'

theorem find_filter_ne_none (fid : String) (l : List FB) :
    (l.filter (fun r => r.feedback_id ≠ fid)).find?
      (fun r => r.feedback_id = fid) = none := by
  rw [List.find?_eq_none]
  intro x hx
  have := List.of_mem_filter hx
  simp only [decide_not, Bool.not_eq_true', decide_eq_false_iff_not] at this
  simpa using this

theorem review_not_found {st : RState} {fid d : String}
    (h : find_open st fid = none) :
    admin_review_feedback st fid d =
      (st, { success := false, message := "Feedback not found" }) := by
  unfold admin_review_feedback
  rw [h]

theorem review_found_state {st : RState} {fid : String} (d : String) {it : FB}
    (h : find_open st fid = some it) :
    (admin_review_feedback st fid d).2.success = true ∧
    (admin_review_feedback st fid d).1.filePending = (popFirst fid st.filePending).2 ∧
    (admin_review_feedback st fid d).1.memPending =
      st.memPending.filter (fun r => r.feedback_id ≠ fid) := by
  unfold admin_review_feedback
  rw [h]
  exact ⟨rfl, rfl, rfl⟩

theorem review_success_found {st : RState} {fid d : String}
    (h : (admin_review_feedback st fid d).2.success = true) :
    ∃ it, find_open st fid = some it := by
  unfold admin_review_feedback at h
  cases hf : find_open st fid with
  | none => rw [hf] at h; simp at h
  | some it => exact ⟨it, rfl⟩

theorem no_open_record_after_success {st : RState} {fid d : String}
    (hnd : (st.filePending.map FB.feedback_id).Nodup)
    (h : (admin_review_feedback st fid d).2.success = true) :
    (∀ x ∈ (admin_review_feedback st fid d).1.filePending, x.feedback_id ≠ fid) ∧
    (admin_review_feedback st fid d).1.memPending.find?
      (fun r => r.feedback_id = fid) = none := by
  obtain ⟨it, hfound⟩ := review_success_found h
  obtain ⟨-, hfile, hmem⟩ := review_found_state d hfound
  constructor
  · rw [hfile]
    cases hp : (popFirst fid st.filePending).1 with
    | some it2 => exact popFirst_fst_some hnd hp
    | none =>
      intro x hx
      exact (popFirst_fst_none hp).2 x (by rwa [(popFirst_fst_none hp).1] at hx)
  · rw [hmem]
    exact find_filter_ne_none fid _

/-- C5 amended: a manual admin decision is idempotent per feedback id —
once `admin_review_feedback` has decided a record (removing it from the
pending file and the memory store), any later `ReviewFeedback` call on
the same id returns `success = False` with the "Feedback not found"
result and returns the state unchanged (no store or status is touched);
records auto-approved at submission, however, are not removed by that
automatic decision and can still be decided once (see the
counterexample). -/
theorem manual_decision_idempotent (st : RState) (fid d1 d2 : String)
    (hnd : (st.filePending.map FB.feedback_id).Nodup)
    (h1 : (admin_review_feedback st fid d1).2.success = true) :
    admin_review_feedback (admin_review_feedback st fid d1).1 fid d2 =
      ((admin_review_feedback st fid d1).1,
       { success := false, message := "Feedback not found" }) := by
  obtain ⟨hfileno, hmemno⟩ := no_open_record_after_success hnd h1
  have hopen : find_open (admin_review_feedback st fid d1).1 fid = none := by
    unfold find_open
    rw [popFirst_eq_none hfileno]
    exact hmemno
  exact review_not_found hopen

/-- C5 witness: the amended theorem applied to a concrete two-record
state — approving `fb1` and then attempting a second decision on it. -/
theorem manual_decision_idempotent_witness :
    admin_review_feedback
        (admin_review_feedback twoPendingState "fb1" "approve").1 "fb1" "reject" =
      ((admin_review_feedback twoPendingState "fb1" "approve").1,
       { success := false, message := "Feedback not found" }) :=
  manual_decision_idempotent twoPendingState "fb1" "approve" "reject"
    (by decide) (by decide)

/-- C5 counterexample: a record auto-approved at submission (an
automatic decision that leaves it outside the pending/flagged open
queue — `get_pending_feedback` never returns it) can nevertheless be
decided by a later `ReviewFeedback` call, which succeeds and rewrites
the record's status into the rejected store instead of failing with a
not-found result. -/
theorem auto_approved_still_reviewable :
    (submit_user_feedback emptyRState "fb9" 1 expertSubmission).2 =
      FStatus.auto_approved ∧
    (∀ f ∈ get_pending_feedback autoApprovedState 50, f.feedback_id ≠ "fb9") ∧
    (admin_review_feedback autoApprovedState "fb9" "reject").2.success = true ∧
    (admin_review_feedback autoApprovedState "fb9" "reject").1.rejectedStore ≠ [] := by
  refine ⟨by decide, by decide, by decide, by decide⟩

/-- C10: calling `admin_review_feedback` on an open record with a
decision that is neither `approve` nor `reject` (case-insensitive)
still succeeds (`success = True`), removes the record from the open
pending queue, assigns no terminal status (the reviewed and rejected
stores and the corpus are untouched, and the logged record keeps its
original status), and counts the decision as a rejection in the
quality metrics. -/
theorem other_decision_counts_as_rejection (st : RState) (fid d : String) (it : FB)
    (hfound : find_open st fid = some it)
    (hna : lowerS d ≠ "approve") (hnr : lowerS d ≠ "reject") :
    (admin_review_feedback st fid d).2.success = true ∧
    (admin_review_feedback st fid d).1.reviewed = st.reviewed ∧
    (admin_review_feedback st fid d).1.rejectedStore = st.rejectedStore ∧
    (admin_review_feedback st fid d).1.dataset = st.dataset ∧
    (admin_review_feedback st fid d).1.metrics =
      { total_reviewed := st.metrics.total_reviewed + 1,
        approved := st.metrics.approved,
        rejected := st.metrics.rejected + 1 } ∧
    (admin_review_feedback st fid d).1.decisions =
      st.decisions ++ [{ feedback_id := fid, decision := d, original_feedback := it }] ∧
    (∀ x ∈ (admin_review_feedback st fid d).1.memPending, x.feedback_id ≠ fid) ∧
    ((st.filePending.map FB.feedback_id).Nodup →
      ∀ x ∈ (admin_review_feedback st fid d).1.filePending, x.feedback_id ≠ fid) := by
  have hstep : admin_review_feedback st fid d =
      ({ filePending := (popFirst fid st.filePending).2
         memPending := st.memPending.filter (fun r => r.feedback_id ≠ fid)
         reviewed := st.reviewed
         rejectedStore := st.rejectedStore
         dataset := st.dataset
         metrics := update_quality_metrics st.metrics d
         decisions := st.decisions ++
           [{ feedback_id := fid, decision := d, original_feedback := it }] },
       { success := true, message := "Feedback " ++ d ++ "d successfully" }) := by
    unfold admin_review_feedback
    rw [hfound]
    simp only [if_neg hna, if_neg hnr]
  rw [hstep]
  refine ⟨rfl, rfl, rfl, rfl, ?_, rfl, ?_, ?_⟩
  · simp [update_quality_metrics, hna]
  · intro x hx
    have := List.of_mem_filter hx
    simp only [decide_not, Bool.not_eq_true', decide_eq_false_iff_not] at this
    simpa using this
  · intro hnd
    cases hp : (popFirst fid st.filePending).1 with
    | some it2 => exact popFirst_fst_some hnd hp
    | none =>
      intro x hx
      exact (popFirst_fst_none hp).2 x (by rwa [(popFirst_fst_none hp).1] at hx)

/-- C10 witness: the theorem applied to a concrete open record with the
decision string `maybe`. -/
theorem other_decision_counts_as_rejection_witness :
    (admin_review_feedback twoPendingState "fb1" "maybe").2.success = true ∧
    (admin_review_feedback twoPendingState "fb1" "maybe").1.metrics =
      { total_reviewed := twoPendingState.metrics.total_reviewed + 1,
        approved := twoPendingState.metrics.approved,
        rejected := twoPendingState.metrics.rejected + 1 } :=
  ⟨(other_decision_counts_as_rejection twoPendingState "fb1" "maybe" fbLow
      (by decide) (by decide) (by decide)).1,
   (other_decision_counts_as_rejection twoPendingState "fb1" "maybe" fbLow
      (by decide) (by decide) (by decide)).2.2.2.2.1⟩

theorem keyLe_total (a b : FB) : keyLe a b = true ∨ keyLe b a = true := by
  simp only [keyLe, decide_eq_true_eq]
  omega

theorem keyLe_trans {a b c : FB} (h1 : keyLe a b = true) (h2 : keyLe b c = true) :
    keyLe a c = true := by
  simp only [keyLe, decide_eq_true_eq] at h1 h2 ⊢
  omega

theorem insOrd_perm (le : FB → FB → Bool) (x : FB) (l : List FB) :
    List.Perm (insOrd le x l) (x :: l) := by
  induction l with
  | nil => rfl
  | cons y ys ih =>
    unfold insOrd
    split
    · rfl
    · exact (List.Perm.cons y ih).trans (List.Perm.swap x y ys)

theorem sortOrd_perm (le : FB → FB → Bool) (l : List FB) : List.Perm (sortOrd le l) l := by
  induction l with
  | nil => rfl
  | cons x xs ih =>
    exact (insOrd_perm le x (sortOrd le xs)).trans (List.Perm.cons x ih)

theorem insOrd_pairwise {x : FB} {l : List FB}
    (h : l.Pairwise (fun a b => keyLe a b = true)) :
    (insOrd keyLe x l).Pairwise (fun a b => keyLe a b = true) := by
  induction l with
  | nil => simp [insOrd]
  | cons y ys ih =>
    rw [List.pairwise_cons] at h
    by_cases hxy : keyLe x y = true
    · simp only [insOrd, if_pos hxy]
      rw [List.pairwise_cons]
      refine ⟨?_, List.pairwise_cons.mpr h⟩
      intro z hz
      rcases List.mem_cons.mp hz with rfl | hz'
      · exact hxy
      · exact keyLe_trans hxy (h.1 z hz')
    · simp only [insOrd, if_neg hxy]
      rw [List.pairwise_cons]
      refine ⟨?_, ih h.2⟩
      intro z hz
      have hyx : keyLe y x = true := (keyLe_total x y).resolve_left hxy
      rcases List.mem_cons.mp ((insOrd_perm keyLe x ys).mem_iff.mp hz) with rfl | h2
      · exact hyx
      · exact h.1 z h2

theorem sortOrd_pairwise (l : List FB) :
    (sortOrd keyLe l).Pairwise (fun a b => keyLe a b = true) := by
  induction l with
  | nil => exact List.Pairwise.nil
  | cons x xs ih => exact insOrd_pairwise ih

/-- C6: for every state and limit, `get_pending_feedback` returns only
records whose status is `pending` or `flagged`, returns at most `limit`
of them, and orders them with every flagged record before every
non-flagged one and oldest-first (by creation timestamp) within each
tier. -/
theorem pending_queue_spec (st : RState) (limit : Nat) :
    (∀ f ∈ get_pending_feedback st limit,
      f.status = FStatus.pending ∨ f.status = FStatus.flagged) ∧
    (get_pending_feedback st limit).length ≤ limit ∧
    (get_pending_feedback st limit).Pairwise (fun a b =>
      (a.status ≠ FStatus.flagged → b.status ≠ FStatus.flagged) ∧
      (tierOf a = tierOf b → a.timestamp ≤ b.timestamp)) := by
  unfold get_pending_feedback
  refine ⟨?_, List.length_take_le _ _, ?_⟩
  · intro f hf
    have hf1 := List.take_subset _ _ hf
    have hf2 := (sortOrd_perm keyLe (open_feedback st)).mem_iff.mp hf1
    unfold open_feedback at hf2
    have := List.of_mem_filter hf2
    simpa using this
  · have hp := (sortOrd_pairwise (open_feedback st)).sublist
      (List.take_sublist limit (sortOrd keyLe (open_feedback st)))
    refine hp.imp ?_
    intro a b h
    simp only [keyLe, decide_eq_true_eq] at h
    constructor
    · intro ha hb
      simp only [tierOf, if_neg ha, if_pos hb] at h
      omega
    · intro he
      rcases h with h | h
      · omega
      · exact h.2

theorem b64val_b64chr : ∀ s < 64, b64val (b64chr s) = some s := by decide

theorem b64chr_ne_58 : ∀ s < 64, b64chr s ≠ 58 := by decide

theorem b64sextets_lt {bs : List Nat} (h : ∀ b ∈ bs, b < 256) :
    ∀ s ∈ b64sextets bs, s < 64 := by
  induction bs using b64sextets.induct with
  | case1 => simp [b64sextets]
  | case2 a =>
    have ha := h a (by simp)
    simp only [b64sextets, List.mem_cons, List.mem_singleton, List.not_mem_nil]
    intro s hs
    rcases hs with rfl | hs
    · omega
    · simp at hs; omega
  | case3 a b =>
    have ha := h a (by simp)
    have hb := h b (by simp)
    simp only [b64sextets, List.mem_cons, List.not_mem_nil]
    intro s hs
    rcases hs with rfl | rfl | hs
    · omega
    · omega
    · simp at hs; omega
  | case4 a b c rest ih =>
    have ha := h a (by simp)
    have hb := h b (by simp)
    have hc := h c (by simp)
    have ih' := ih (fun x hx => h x (by simp [hx]))
    simp only [b64sextets, List.mem_cons]
    intro s hs
    rcases hs with rfl | rfl | rfl | rfl | hs
    · omega
    · omega
    · omega
    · omega
    · exact ih' s hs

theorem filterMap_b64val_map {l : List Nat} (h : ∀ s ∈ l, s < 64) :
    (l.map b64chr).filterMap b64val = l := by
  induction l with
  | nil => rfl
  | cons x xs ih =>
    have hx := b64val_b64chr x (h x (by simp))
    have ih' := ih (fun s hs => h s (by simp [hs]))
    simp [List.filterMap_cons, hx, ih']

theorem b64quads_b64sextets {bs : List Nat} (h : ∀ b ∈ bs, b < 256) :
    b64quads (b64sextets bs) = some bs := by
  induction bs using b64sextets.induct with
  | case1 => rfl
  | case2 a =>
    have ha := h a (by simp)
    show b64quads [a / 4, a % 4 * 16] = some [a]
    show some [a / 4 * 4 + a % 4 * 16 / 16] = some [a]
    congr 2
    omega
  | case3 a b =>
    have ha := h a (by simp)
    have hb := h b (by simp)
    show b64quads [a / 4, a % 4 * 16 + b / 16, b % 16 * 4] = some [a, b]
    show some [a / 4 * 4 + (a % 4 * 16 + b / 16) / 16,
               (a % 4 * 16 + b / 16) % 16 * 16 + b % 16 * 4 / 4] = some [a, b]
    congr 3
    · omega
    · omega
  | case4 a b c rest ih =>
    have ha := h a (by simp)
    have hb := h b (by simp)
    have hc := h c (by simp)
    have ih' := ih (fun x hx => h x (by simp [hx]))
    show b64quads (a / 4 :: (a % 4 * 16 + b / 16) :: (b % 16 * 4 + c / 64) ::
        c % 64 :: b64sextets rest) = some (a :: b :: c :: rest)
    rw [b64quads, ih']
    show some (_ :: _ :: _ :: rest) = _
    congr 4
    · omega
    · omega
    · omega

theorem b64urlDecode_encode {bs : List Nat} (h : ∀ b ∈ bs, b < 256) :
    b64urlDecode (b64urlEncode bs) = some bs := by
  unfold b64urlDecode b64urlEncode
  rw [filterMap_b64val_map (b64sextets_lt h)]
  exact b64quads_b64sextets h

theorem rsplitLast_eq_none {sep : Nat} {l : List Nat}
    (h : ∀ c ∈ l, c ≠ sep) : rsplitLast sep l = none := by
  induction l with
  | nil => rfl
  | cons a rest ih =>
    have ih' := ih (fun c hc => h c (by simp [hc]))
    simp [rsplitLast, ih', h a (by simp)]

theorem rsplitLast_append {sep : Nat} (u d : List Nat)
    (hd : ∀ c ∈ d, c ≠ sep) : rsplitLast sep (u ++ sep :: d) = some (u, d) := by
  induction u with
  | nil => simp [rsplitLast, rsplitLast_eq_none hd]
  | cons a u ih => simp [rsplitLast, ih]

theorem natDigitsAux_spec :
    ∀ fuel n, n < 10 ^ (fuel + 1) →
      natDigitsAux (fuel + 1) n ≠ [] ∧
      (∀ c ∈ natDigitsAux (fuel + 1) n, 48 ≤ c ∧ c ≤ 57) ∧
      (natDigitsAux (fuel + 1) n).foldl (fun acc c => acc * 10 + (c - 48)) 0 = n := by
  intro fuel
  induction fuel with
  | zero =>
    intro n hn
    have hn' : n < 10 := by simpa using hn
    refine ⟨by simp [natDigitsAux, hn'], ?_, ?_⟩
    · simp only [natDigitsAux, if_pos hn']
      intro c hc
      simp at hc
      omega
    · simp [natDigitsAux, hn']
  | succ fuel ih =>
    intro n hn
    by_cases h10 : n < 10
    · refine ⟨by simp [natDigitsAux, h10], ?_, ?_⟩
      · simp only [natDigitsAux, if_pos h10]
        intro c hc
        simp at hc
        omega
      · simp [natDigitsAux, h10]
    · have hdiv : n / 10 < 10 ^ (fuel + 1) := by
        rw [pow_succ] at hn
        omega
      obtain ⟨h1, h2, h3⟩ := ih (n / 10) hdiv
      have heq : natDigitsAux (fuel + 1 + 1) n =
          natDigitsAux (fuel + 1) (n / 10) ++ [48 + n % 10] := by
        simp [natDigitsAux, h10]
      refine ⟨by simp [heq], ?_, ?_⟩
      · rw [heq]
        intro c hc
        rcases List.mem_append.mp hc with hc' | hc'
        · exact h2 c hc'
        · simp at hc'
          omega
      · rw [heq, List.foldl_append, h3]
        simp
        omega

theorem natDigits_spec (n : Nat) :
    natDigits n ≠ [] ∧
    (∀ c ∈ natDigits n, 48 ≤ c ∧ c ≤ 57) ∧
    (natDigits n).foldl (fun acc c => acc * 10 + (c - 48)) 0 = n := by
  have hlt : n < 10 ^ (n + 1) := by
    calc n < 10 ^ n := Nat.lt_pow_self (by norm_num) n
    _ ≤ 10 ^ (n + 1) := Nat.pow_le_pow_right (by norm_num) (by omega)
  exact natDigitsAux_spec n n hlt

theorem parsePyNat_natDigits (n : Nat) : parsePyNat (natDigits n) = some n := by
  obtain ⟨h1, h2, h3⟩ := natDigits_spec n
  unfold parsePyNat
  rw [if_pos]
  · rw [h3]
  · refine ⟨h1, ?_⟩
    rw [List.all_eq_true]
    intro c hc
    have := h2 c hc
    simp only [decide_eq_true_eq]
    omega

theorem validate_generated (hmacHex : List Nat → List Nat → List Nat)
    (secret username : List Nat) (expiry : Nat) (revoked : List (List Nat))
    (sessions : List (List Nat × LegacySession)) (now : Nat)
    (hb : ∀ b ∈ username, b < 256)
    (hsig : ∀ c ∈ hmacHex secret (b64urlEncode (username ++ 58 :: natDigits expiry)), c ≠ 58)
    (hnr : generate_session_token hmacHex secret username expiry ∉ revoked) :
    validate_token hmacHex secret revoked sessions now
        (generate_session_token hmacHex secret username expiry) =
      if expiry < now then none
      else some { username := username, expiry := expiry } := by
  have hpay : ∀ b ∈ username ++ 58 :: natDigits expiry, b < 256 := by
    intro b hbmem
    rcases List.mem_append.mp hbmem with hmem | hmem
    · exact hb b hmem
    · rcases List.mem_cons.mp hmem with rfl | hmem'
      · omega
      · have := (natDigits_spec expiry).2.1 b hmem'
        omega
  have hdig : ∀ c ∈ natDigits expiry, c ≠ 58 := by
    intro c hc
    have := (natDigits_spec expiry).2.1 c hc
    omega
  unfold generate_session_token at hnr ⊢
  unfold validate_token
  rw [if_neg (by simp : ¬ (b64urlEncode (username ++ 58 :: natDigits expiry) ++
        58 :: hmacHex secret (b64urlEncode (username ++ 58 :: natDigits expiry)) = []))]
  rw [if_neg hnr]
  rw [rsplitLast_append _ _ hsig]
  dsimp only
  rw [if_pos rfl, b64urlDecode_encode hpay]
  dsimp only
  rw [rsplitLast_append _ _ hdig]
  dsimp only
  rw [parsePyNat_natDigits]

/-- C7: `validate_token` rejects every token in the revocation set even
when its embedded expiry is still in the future (the revocation check
precedes everything); it also rejects a freshly generated but expired
token that was never revoked; and revocation is permanent — the set
only grows (`revoke_token` only inserts) and a revoked token is
rejected under every superset of the revocation set. -/
theorem revoked_and_expired_rejected (hmacHex : List Nat → List Nat → List Nat)
    (secret : List Nat) (sessions : List (List Nat × LegacySession))
    (now : Nat) (revoked : List (List Nat)) :
    (∀ t ∈ revoked, validate_token hmacHex secret revoked sessions now t = none) ∧
    (∀ username expiry, (∀ b ∈ username, b < 256) →
      (∀ c ∈ hmacHex secret (b64urlEncode (username ++ 58 :: natDigits expiry)),
        c ≠ 58) →
      generate_session_token hmacHex secret username expiry ∉ revoked →
      expiry < now →
      validate_token hmacHex secret revoked sessions now
        (generate_session_token hmacHex secret username expiry) = none) ∧
    (∀ t u, t ∈ revoked → t ∈ revoke_token revoked u) ∧
    (∀ revoked', revoked ⊆ revoked' →
      ∀ t ∈ revoked, validate_token hmacHex secret revoked' sessions now t = none) := by
  have hrej : ∀ (rv : List (List Nat)) (t : List Nat), t ∈ rv →
      validate_token hmacHex secret rv sessions now t = none := by
    intro rv t ht
    unfold validate_token
    by_cases h0 : t = []
    · rw [if_pos h0]
    · rw [if_neg h0, if_pos ht]
  refine ⟨hrej revoked, ?_, ?_, ?_⟩
  · intro username expiry hb hsig hnr hexp
    rw [validate_generated hmacHex secret username expiry revoked sessions now hb hsig hnr]
    rw [if_pos hexp]
  · intro t u ht
    unfold revoke_token
    split
    · exact ht
    · exact List.mem_cons_of_mem u ht
  · intro revoked' hsub t ht
    exact hrej revoked' t (hsub ht)

/-- C7 witness: the theorem applied concretely — a revoked token is
rejected, an expired generated token is rejected, revocation survives
further `revoke_token` calls, and the revoked token stays rejected
under a grown revocation set. -/
theorem revoked_and_expired_rejected_witness :
    validate_token constSig [] [[99]] [] 0 [99] = none ∧
    validate_token constSig [] [] [] 9
      (generate_session_token constSig [] [117] 5) = none ∧
    [99] ∈ revoke_token [[99]] [100] ∧
    validate_token constSig [] [[99], [100]] [] 0 [99] = none :=
  ⟨(revoked_and_expired_rejected constSig [] [] 0 [[99]]).1 [99] (by decide),
   (revoked_and_expired_rejected constSig [] [] 9 []).2.1 [117] 5
     (by decide) (by decide) (by decide) (by decide),
   (revoked_and_expired_rejected constSig [] [] 0 [[99]]).2.2.1 [99] [100] (by decide),
   (revoked_and_expired_rejected constSig [] [] 0 [[99]]).2.2.2 [[99], [100]]
     (by decide) [99] (by decide)⟩

/-- C9: a freshly issued token `base64url(username:expiry) : hexHMAC`
validates before its expiry purely by HMAC recomputation over the token
string — the result is the same for every legacy session store (no
per-token server-side lookup) — and validation returns exactly the
username encoded at issuance. -/
theorem token_roundtrip_stateless (hmacHex : List Nat → List Nat → List Nat)
    (secret username : List Nat) (expiry : Nat) (revoked : List (List Nat))
    (sessions sessions' : List (List Nat × LegacySession)) (now : Nat)
    (hb : ∀ b ∈ username, b < 256)
    (hsig : ∀ c ∈ hmacHex secret (b64urlEncode (username ++ 58 :: natDigits expiry)),
      c ≠ 58)
    (hnr : generate_session_token hmacHex secret username expiry ∉ revoked)
    (hexp : now ≤ expiry) :
    validate_token hmacHex secret revoked sessions now
        (generate_session_token hmacHex secret username expiry) =
      some { username := username, expiry := expiry } ∧
    validate_token hmacHex secret revoked sessions now
        (generate_session_token hmacHex secret username expiry) =
      validate_token hmacHex secret revoked sessions' now
        (generate_session_token hmacHex secret username expiry) := by
  have h1 := validate_generated hmacHex secret username expiry revoked sessions now
    hb hsig hnr
  have h2 := validate_generated hmacHex secret username expiry revoked sessions' now
    hb hsig hnr
  rw [h1, h2, if_neg (not_lt.mpr hexp)]
  exact ⟨rfl, rfl⟩

/-- C9 witness: the round trip applied to a concrete username and
expiry, under two different legacy session stores. -/
theorem token_roundtrip_stateless_witness :
    validate_token constSig [] [] [] 3
        (generate_session_token constSig [] [117, 115] 5) =
      some { username := [117, 115], expiry := 5 } ∧
    validate_token constSig [] [] [] 3
        (generate_session_token constSig [] [117, 115] 5) =
      validate_token constSig [] []
        [([99], { username := [120], expiry := 9 })] 3
        (generate_session_token constSig [] [117, 115] 5) :=
  token_roundtrip_stateless constSig [] [117, 115] 5 [] []
    [([99], { username := [120], expiry := 9 })] 3
    (by decide) (by decide) (by decide) (by decide)

end Phish
